import Mathlib

/-!
Shallow embedding of the OHLC synchronisation engine of `src/ohlc.py`
(classes `CryptoCompareOHLC`, `IBOHLC` and `OHLCUpdaterFactory`), together
with theorems settling the behavioural claims about it.

Modelling conventions:
* Calendar days are integers (a day number); `d + 1` is the next day.
  Prices are integers (the claims only distinguish zero from non-zero and
  compare for equality, so exact arithmetic is faithful where it matters).
* The paginated upstream HTTP API is a parameter
  `api : Int → Int → List Bar`: `api limit toDate` is the raw body of one
  call of `request_cryptocompare`, a NEWEST-first list of bars
  (`data["Data"]["Data"]`, reversed inside `request_cryptocompare`).
* A Python runtime error (IndexError on `data[0]`, UnboundLocalError on a
  variable never assigned) is modelled as an explicit error value.
* Python truthiness of an `Optional[datetime.date]` is `Option.isSome`:
  a `date`/`datetime` object is always truthy, so `if start_date:` tests
  exactly "is not None".
-/

namespace Tradebot

/-- One OHLC bar, the tuple `(date, open, high, low, close)` built in
`request_cryptocompare` (`ohlc.py` line 205). -/
structure Bar where
  date : Int
  o : Int
  h : Int
  l : Int
  c : Int
deriving DecidableEq, Repr

namespace CryptoCompareOHLC

/-- `sum([ohlc[1], ohlc[2], ohlc[3], ohlc[4]])` from `ohlc.py` line 150. -/
def sumOHLC (b : Bar) : Int :=
  b.o + b.h + b.l + b.c

/-- Embedding of `request_cryptocompare` (`ohlc.py` lines 160-205): issue one
API call and reverse the newest-first response to oldest-first.  The network
call itself is the parameter `api`. -/
def request_cryptocompare (api : Int → Int → List Bar) (limit : Int)
    (toDate : Int) : List Bar :=
  (api limit toDate).reverse

/-- Embedding of the `limit` assignment of `get_ohlc_data`
(`ohlc.py` lines 106-127).  The local variable `limit` starts unbound
(`none`).  The first guard is `if start_date:` (truthiness, i.e. `isSome`);
the second is `if start_date is None:`, whose branch resolves the vendor
earliest-available date `firstDate` and assigns `limit` from it.  The value
returned is the state of `limit` at the page-size comparison of line 129. -/
def limitAfterGuards (startDate : Option Int) (endDate firstDate : Int) :
    Option Int :=
  let afterFirstGuard : Option Int :=
    match startDate with
    | some s => some (endDate - s)
    | none => none
  match startDate with
  | none => some (endDate - firstDate)
  | some _ => afterFirstGuard

/-- Embedding of the pagination `while` loop of `get_ohlc_data`
(`ohlc.py` lines 134-138): while `limit > 2000`, request a full page of
2000 ending at `toDate`, prepend it to the accumulator, decrement `limit`
by 2000 and move `toDate` to the day before the earliest returned point
(`data[0][0].date() - timedelta(1)`).  Returns the accumulator, the
remaining `limit` and the final `toDate` together with the number of
requests issued; `none` is the IndexError raised by `data[0]` when a page
comes back empty. -/
@[irreducible]
def ccLoop (api : Int → Int → List Bar) (limit toDate : Int)
    (acc : List Bar) (reqs : Nat) : Option (List Bar × Int × Int) × Nat :=
  if _h : 2000 < limit then
    let data := request_cryptocompare api 2000 toDate
    match data.head? with
    | none => (none, reqs + 1)
    | some b => ccLoop api (limit - 2000) (b.date - 1) (data ++ acc) (reqs + 1)
  else
    (some (acc, limit, toDate), reqs)
termination_by limit.toNat
decreasing_by
  omega

/-- Index `i` left by the `for i, ohlc in enumerate(all_data)` scan of
`ohlc.py` lines 149-151: the index of the first bar whose OHLC sum is
non-zero (the `break`), or, when no bar matches, the last index of the
list (the loop runs to the end and `i` stays at the final element).  On a
one-element list both cases give index 0.  The `[]` case is never
consulted: `stripLeadingZeros` models the empty list as an error before
reading `i`. -/
def trimIndex : List Bar → Nat
  | [] => 0
  | [_] => 0
  | b :: c :: rest =>
    if sumOHLC b != 0 then 0 else trimIndex (c :: rest) + 1

/-- Embedding of the leading-zero trimming step of `get_ohlc_data`
(`ohlc.py` lines 146-153), taken when `start_date` is unset: drop every
leading bar whose OHLC sum is zero.  On the empty list the loop variable
`i` is never assigned and `all_data[i:]` raises UnboundLocalError,
modelled as `none`. -/
def stripLeadingZeros (l : List Bar) : Option (List Bar) :=
  if l.isEmpty then none else some (l.drop (trimIndex l))

/-- Outcome of one `get_ohlc_data` call: `noFetch` when the early
non-crypto return fires and `self.data` is never assigned, `fetched d`
when `self.data` is set to `d`, `error` for a Python runtime error. -/
inductive FetchOutcome where
  | noFetch
  | fetched (data : List Bar)
  | error
deriving DecidableEq, Repr

/-- Embedding of the pagination block of `get_ohlc_data` (`ohlc.py` lines
129-144): run the `while` loop when `limit` exceeds the page size, then
issue the final shorter request if a remainder is left; otherwise issue a
single request for the whole window.  Returns the stitched `all_data`
(`none` on a runtime error inside the loop) and the number of histoday
requests issued. -/
def paginate (api : Int → Int → List Bar) (limit endDate : Int) :
    Option (List Bar) × Nat :=
  if 2000 < limit then
    match ccLoop api limit endDate [] 0 with
    | (none, r) => (none, r)
    | (some (acc, rem, toDate), r) =>
      if 0 < rem then
        (some (request_cryptocompare api rem toDate ++ acc), r + 1)
      else
        (some acc, r)
  else
    (some (request_cryptocompare api limit endDate), 1)

/-- Embedding of `CryptoCompareOHLC.get_ohlc_data` (`ohlc.py` lines
99-158).  `vehicle` is `self.instrument.vehicle`; `firstDate` is the
vendor earliest-available date resolved by the blockchain-list endpoint
when `start_date` is unset; `api` is the paginated histoday endpoint.
Returns the outcome together with the total number of upstream HTTP
requests issued (blockchain-list lookup plus histoday pages). -/
def get_ohlc_data (vehicle : String) (firstDate : Int)
    (api : Int → Int → List Bar) (endDate : Int) (startDate : Option Int) :
    FetchOutcome × Nat :=
  if vehicle ≠ "crypto" then
    (.noFetch, 0)
  else
    let listReqs : Nat := if startDate.isSome then 0 else 1
    match limitAfterGuards startDate endDate firstDate with
    | none => (.error, listReqs)
    | some limit =>
      match paginate api limit endDate with
      | (none, r) => (.error, listReqs + r)
      | (some allData, r) =>
        match startDate with
        | none =>
          match stripLeadingZeros allData with
          | none => (.error, listReqs + r)
          | some kept => (.fetched kept, listReqs + r)
        | some _ => (.fetched (allData.drop 1), listReqs + r)

/-- Embedding of `CryptoCompareOHLC.update_ohlc_data` (`ohlc.py` lines
79-97): from the latest stored bar's date and today's date, the
`(end_date, start_date)` window passed to `get_ohlc_data` (followed by
`insert_ohlc_data`), or `none` for the final log-and-return branch, which
fetches nothing and writes nothing. -/
def update_ohlc_data (latest : Option Int) (today : Int) :
    Option (Int × Option Int) :=
  match latest with
  | none => some (today, none)
  | some d =>
    if d = today - 1 then some (today, some d)
    else if d ≠ today then some (today, some (d + 1))
    else none

end CryptoCompareOHLC

namespace IBOHLC

/-- One row of the brokerage bar DataFrame; only the timestamp matters to
the claims (the other columns are renamed, not transformed). -/
structure IBBar where
  date : Int
deriving DecidableEq, Repr

/-- Embedding of the client-side window filter of `IBOHLC.get_ohlc_data`
(`ohlc.py` lines 306-309): `df = df[df["date"] > start_date]` then
`df = df[df["date"] < end_date]`, each applied only when the bound is
truthy (a datetime is always truthy, so `isSome`). -/
def ibFilterDates (bars : List IBBar) (startDate endDate : Option Int) :
    List IBBar :=
  let afterStart :=
    match startDate with
    | some s => bars.filter (fun b => s < b.date)
    | none => bars
  match endDate with
  | some e => afterStart.filter (fun b => b.date < e)
  | none => afterStart

/-- Result of one `IBOHLC.get_ohlc_data` call: the literal `period` and
`bar` arguments passed to `self.ib.get_bars`, and `df` — the filtered
DataFrame stored in `self.df`, or `none` when the filtered frame is empty
and `self.df` is left unset (`ohlc.py` lines 311-312). -/
structure IBFetch where
  period : String
  barSize : String
  df : Option (List IBBar)
deriving DecidableEq, Repr

/-- Embedding of `IBOHLC.get_ohlc_data` (`ohlc.py` lines 272-312).
`gateBlocked` is true when the optional TIME_CHECKER gate is enabled and
rejects the run (lines 283-285), in which case the method returns before
fetching anything.  `getBars` is the brokerage bar-history endpoint,
keyed by the `period` and `bar` parameters; the call site passes the
constants `"5y"` and `"1d"` regardless of the requested window. -/
def get_ohlc_data (gateBlocked : Bool)
    (getBars : String → String → List IBBar)
    (startDate endDate : Option Int) : Option IBFetch :=
  if gateBlocked then
    none
  else
    let bars := getBars "5y" "1d"
    let filtered := ibFilterDates bars startDate endDate
    some
      { period := "5y"
        barSize := "1d"
        df := if filtered.isEmpty then none else some filtered }

/-- Day number of `dt.datetime(2000, 1, 1)` counted in days since
1970-01-01, the fixed window start used when no bar is stored
(`ohlc.py` line 250). -/
def epoch2000 : Int := 10957

/-- Embedding of the window choice of `IBOHLC.update_ohlc_data`
(`ohlc.py` lines 245-264): the `(start, end)` pair passed on to
`get_ohlc_data`, or `none` for the up-to-date branch (line 252-254),
which returns before any fetch or insert.  `latest` is the latest stored
bar's date, `today` today's date and `nowMinusLag` the value of
`dt.datetime.now() - dt.timedelta(minutes=20)`. -/
def update_ohlc_data (latest : Option Int) (today nowMinusLag : Int) :
    Option (Int × Int) :=
  match latest with
  | none => some (epoch2000, nowMinusLag)
  | some d =>
    if d = today then none
    else if d = today - 1 then some (d + 1, nowMinusLag)
    else some (d + 1, nowMinusLag)

end IBOHLC

/-- The two updater variants the factory can instantiate. -/
inductive UpdaterKind where
  | cryptoCompare
  | interactiveBrokers
deriving DecidableEq, Repr

/-- Python's `str.lower()`: lowercase the string character by character. -/
def lowerName (s : String) : String :=
  ⟨s.data.map Char.toLower⟩

/-- Embedding of `OHLCUpdaterFactory.create_updater` (`ohlc.py` lines
322-336): lowercase the source name and compare against the two known
names; an unmatched name falls off the end of the `if`/`elif` chain and
the function returns `None`. -/
def create_updater (ohlcDataSource : String) : Option UpdaterKind :=
  if lowerName ohlcDataSource = "crypto-compare" then
    some .cryptoCompare
  else if lowerName ohlcDataSource = "interactive-brokers" then
    some .interactiveBrokers
  else
    none

/-- Synthetic upstream bar for day `d`, with OHLC drawn from a value
function `v`. -/
def synthBar (v : Int → Int × Int × Int × Int) (d : Int) : Bar :=
  ⟨d, (v d).1, (v d).2.1, (v d).2.2.1, (v d).2.2.2⟩

/-- `n` consecutive synthetic daily bars starting at day `lo`,
oldest-first. -/
def synthSeq (v : Int → Int × Int × Int × Int) (lo : Int) (n : Nat) :
    List Bar :=
  (List.range n).map (fun (i : Nat) => synthBar v (lo + (i : Int)))

/-- Synthetic paginated upstream matching the vendor protocol: a request
for `limit` points ending at `toDate` returns `limit + 1` contiguous daily
bars covering days `toDate - limit … toDate`, newest-first (the raw API
order, which `request_cryptocompare` reverses). -/
def synthApi (v : Int → Int × Int × Int × Int) (limit toDate : Int) :
    List Bar :=
  (synthSeq v (toDate - limit) (limit.toNat + 1)).reverse

/-- All four OHLC components of a bar are zero (the vendor's genesis
artifact). -/
def allZero (b : Bar) : Prop :=
  b.o = 0 ∧ b.h = 0 ∧ b.l = 0 ∧ b.c = 0

instance (b : Bar) : Decidable (allZero b) := by
  unfold allZero
  infer_instance

/-- All four OHLC components are nonnegative, as prices are. -/
def nonnegBar (b : Bar) : Prop :=
  0 ≤ b.o ∧ 0 ≤ b.h ∧ 0 ≤ b.l ∧ 0 ≤ b.c

instance (b : Bar) : Decidable (nonnegBar b) := by
  unfold nonnegBar
  infer_instance

section SynthLemmas

open CryptoCompareOHLC

variable (v : Int → Int × Int × Int × Int)

lemma synthBar_date (d : Int) : (synthBar v d).date = d := rfl

lemma synthSeq_length (lo : Int) (n : Nat) : (synthSeq v lo n).length = n := by
  simp [synthSeq]

lemma synthSeq_succ (lo : Int) (n : Nat) :
    synthSeq v lo (n + 1) = synthBar v lo :: synthSeq v (lo + 1) n := by
  unfold synthSeq
  rw [List.range_succ_eq_map, List.map_cons, List.map_map]
  congr 1
  · congr 1
    simp
  · apply List.map_congr_left
    intro i _
    simp only [Function.comp_apply]
    congr 1
    push_cast
    ring

lemma synthSeq_append (lo : Int) (a b : Nat) :
    synthSeq v lo a ++ synthSeq v (lo + a) b = synthSeq v lo (a + b) := by
  unfold synthSeq
  rw [List.range_add, List.map_append, List.map_map]
  congr 1
  apply List.map_congr_left
  intro i _
  simp only [Function.comp_apply]
  congr 1
  push_cast
  ring

/-- `synthSeq_append` with the index arithmetic as side conditions, for
chaining concrete pagination steps. -/
lemma synthSeq_append' (lo1 lo2 lo : Int) (a b n : Nat) (h1 : lo1 = lo)
    (h2 : lo2 = lo + a) (h3 : n = a + b) :
    synthSeq v lo1 a ++ synthSeq v lo2 b = synthSeq v lo n := by
  rw [h1, h2, h3]
  exact synthSeq_append v lo a b

lemma synthSeq_head? (lo : Int) (n : Nat) (h : n ≠ 0) :
    (synthSeq v lo n).head? = some (synthBar v lo) := by
  obtain ⟨m, rfl⟩ := Nat.exists_eq_succ_of_ne_zero h
  rw [synthSeq_succ]
  rfl

lemma synthSeq_drop_one (lo : Int) (n : Nat) :
    (synthSeq v lo n).drop 1 = synthSeq v (lo + 1) (n - 1) := by
  cases n with
  | zero => simp [synthSeq]
  | succ m =>
    rw [synthSeq_succ]
    simp

/-- Consecutive synthetic bars are exactly one day apart: the sequence is
strictly ascending with no gaps and no duplicate dates. -/
lemma synthSeq_chain : ∀ (n : Nat) (lo : Int),
    List.Chain' (fun a b : Bar => b.date = a.date + 1) (synthSeq v lo n)
  | 0, lo => by simp [synthSeq]
  | 1, lo => by
    rw [synthSeq_succ]
    simp [synthSeq]
  | (n + 2), lo => by
    rw [synthSeq_succ, synthSeq_succ, List.chain'_cons]
    refine ⟨rfl, ?_⟩
    rw [← synthSeq_succ]
    exact synthSeq_chain (n + 1) (lo + 1)

/-- One `request_cryptocompare` call against the synthetic upstream:
`limit + 1` contiguous daily bars ending at `toDate`, oldest-first. -/
lemma request_synth (limit toDate : Int) :
    request_cryptocompare (synthApi v) limit toDate
      = synthSeq v (toDate - limit) (limit.toNat + 1) := by
  simp [request_cryptocompare, synthApi]

end SynthLemmas

namespace CryptoCompareOHLC

lemma ccLoop_exit (api : Int → Int → List Bar) (limit toDate : Int)
    (acc : List Bar) (reqs : Nat) (h : ¬ 2000 < limit) :
    ccLoop api limit toDate acc reqs = (some (acc, limit, toDate), reqs) := by
  rw [ccLoop.eq_def, dif_neg h]

/-- One iteration of the pagination loop against the synthetic upstream:
request a page of 2001 bars ending at `toDate`, prepend it, subtract the
page size from `limit` and move `toDate` back 2001 days. -/
lemma ccLoop_synth_step (v : Int → Int × Int × Int × Int)
    (limit toDate limit2 toDate2 : Int) (acc acc2 : List Bar)
    (reqs reqs2 : Nat) (h : 2000 < limit) (h2 : limit2 = limit - 2000)
    (h3 : toDate2 = toDate - 2001)
    (h4 : acc2 = synthSeq v (toDate - 2000) 2001 ++ acc)
    (h5 : reqs2 = reqs + 1) :
    ccLoop (synthApi v) limit toDate acc reqs
      = ccLoop (synthApi v) limit2 toDate2 acc2 reqs2 := by
  rw [h2, h3, h4, h5]
  rw [ccLoop.eq_def, dif_pos h]
  have hreq : request_cryptocompare (synthApi v) 2000 toDate
      = synthSeq v (toDate - 2000) 2001 := by
    rw [request_synth]
    congr 1
  have hdate : (synthBar v (toDate - 2000)).date - 1 = toDate - 2001 := by
    rw [synthBar_date]
    ring
  simp only [hreq, synthSeq_head? v (toDate - 2000) 2001 (by norm_num), hdate]

lemma paginate_small (api : Int → Int → List Bar) (limit endDate : Int)
    (h : ¬ 2000 < limit) :
    paginate api limit endDate
      = (some (request_cryptocompare api limit endDate), 1) := by
  unfold paginate
  rw [if_neg h]

lemma paginate_loop (api : Int → Int → List Bar) (limit endDate : Int)
    (acc : List Bar) (rem toDate : Int) (r : Nat) (h : 2000 < limit)
    (hloop : ccLoop api limit endDate [] 0 = (some (acc, rem, toDate), r))
    (hrem : 0 < rem) :
    paginate api limit endDate
      = (some (request_cryptocompare api rem toDate ++ acc), r + 1) := by
  unfold paginate
  rw [if_pos h, hloop]
  show (if 0 < rem then
          (some (request_cryptocompare api rem toDate ++ acc), r + 1)
        else (some acc, r))
      = (some (request_cryptocompare api rem toDate ++ acc), r + 1)
  rw [if_pos hrem]

lemma get_ohlc_noncrypto (vehicle : String) (h : vehicle ≠ "crypto")
    (firstDate : Int) (api : Int → Int → List Bar) (endDate : Int)
    (startDate : Option Int) :
    get_ohlc_data vehicle firstDate api endDate startDate = (.noFetch, 0) := by
  unfold get_ohlc_data
  rw [if_pos h]

/-- `get_ohlc_data` on a crypto instrument with a supplied `start_date`:
paginate the `(end_date - start_date)`-day window, then trim the first
row of the stitched result. -/
lemma get_ohlc_crypto_some (firstDate : Int) (api : Int → Int → List Bar)
    (endDate s0 : Int) :
    get_ohlc_data "crypto" firstDate api endDate (some s0)
      = (match paginate api (endDate - s0) endDate with
         | (none, r) => (.error, r)
         | (some allData, r) => (.fetched (allData.drop 1), r)) := by
  unfold get_ohlc_data
  rw [if_neg (by simp)]
  show (match paginate api (endDate - s0) endDate with
        | (none, r) => (FetchOutcome.error, 0 + r)
        | (some allData, r) => (.fetched (allData.drop 1), 0 + r))
      = _
  rcases paginate api (endDate - s0) endDate with ⟨data, r⟩
  cases data <;> simp

/-- `get_ohlc_data` on a crypto instrument with no `start_date`: resolve
the vendor earliest date, paginate, then strip leading all-zero bars. -/
lemma get_ohlc_crypto_none (firstDate : Int) (api : Int → Int → List Bar)
    (endDate : Int) :
    get_ohlc_data "crypto" firstDate api endDate none
      = (match paginate api (endDate - firstDate) endDate with
         | (none, r) => (.error, 1 + r)
         | (some allData, r) =>
           match stripLeadingZeros allData with
           | none => (.error, 1 + r)
           | some kept => (.fetched kept, 1 + r)) := by
  unfold get_ohlc_data
  rw [if_neg (by simp)]
  show (match paginate api (endDate - firstDate) endDate with
        | (none, r) => (FetchOutcome.error, 1 + r)
        | (some allData, r) =>
          match stripLeadingZeros allData with
          | none => (.error, 1 + r)
          | some kept => (.fetched kept, 1 + r))
      = _
  rfl

/-- The pagination loop on a 5000-day window against the synthetic
upstream: two full-page iterations, each consuming 2001 days while only
decrementing `limit` by 2000, leave a remainder of 1000 with the
accumulator holding days `endDate - 4001 … endDate`. -/
lemma ccLoop_synth_5000 (v : Int → Int × Int × Int × Int) (e : Int) :
    ccLoop (synthApi v) 5000 e [] 0
      = (some (synthSeq v (e - 4001) 4002, 1000, e - 4002), 2) := by
  have s1 : ccLoop (synthApi v) 5000 e [] 0
      = ccLoop (synthApi v) 3000 (e - 2001) (synthSeq v (e - 2000) 2001) 1 :=
    ccLoop_synth_step v 5000 e 3000 (e - 2001) [] (synthSeq v (e - 2000) 2001)
      0 1 (by norm_num) (by norm_num) rfl (by rw [List.append_nil]) rfl
  have h4 : synthSeq v (e - 4001) 4002
      = synthSeq v ((e - 2001) - 2000) 2001 ++ synthSeq v (e - 2000) 2001 :=
    (synthSeq_append' v (e - 2001 - 2000) (e - 2000) (e - 4001) 2001 2001 4002
      (by ring) (by push_cast; ring) (by norm_num)).symm
  have s2 : ccLoop (synthApi v) 3000 (e - 2001) (synthSeq v (e - 2000) 2001) 1
      = ccLoop (synthApi v) 1000 (e - 4002) (synthSeq v (e - 4001) 4002) 2 :=
    ccLoop_synth_step v 3000 (e - 2001) 1000 (e - 4002)
      (synthSeq v (e - 2000) 2001) (synthSeq v (e - 4001) 4002) 1 2
      (by norm_num) (by norm_num) (by ring) h4 rfl
  have s3 : ccLoop (synthApi v) 1000 (e - 4002) (synthSeq v (e - 4001) 4002) 2
      = (some (synthSeq v (e - 4001) 4002, 1000, e - 4002), 2) :=
    ccLoop_exit (synthApi v) 1000 (e - 4002) (synthSeq v (e - 4001) 4002) 2
      (by norm_num)
  exact s1.trans (s2.trans s3)

/-- Full evaluation of `get_ohlc_data` on a 5000-day window (supplied
`start_date`) against the synthetic contiguous upstream: the stitched
5003-bar accumulator loses exactly one bar to the trim, leaving 5002
contiguous bars covering days `endDate - 5001 … endDate`. -/
lemma get_ohlc_synth_5000 (v : Int → Int × Int × Int × Int) (fd e : Int) :
    get_ohlc_data "crypto" fd (synthApi v) e (some (e - 5000))
      = (.fetched (synthSeq v (e - 5001) 5002), 3) := by
  rw [get_ohlc_crypto_some, show e - (e - 5000) = 5000 from by ring]
  rw [paginate_loop (synthApi v) 5000 e (synthSeq v (e - 4001) 4002) 1000
    (e - 4002) 2 (by norm_num) (ccLoop_synth_5000 v e) (by norm_num)]
  show (FetchOutcome.fetched
      ((request_cryptocompare (synthApi v) 1000 (e - 4002)
        ++ synthSeq v (e - 4001) 4002).drop 1), 2 + 1)
    = (.fetched (synthSeq v (e - 5001) 5002), 3)
  have hfin : request_cryptocompare (synthApi v) 1000 (e - 4002)
      = synthSeq v (e - 5002) 1001 := by
    rw [request_synth]
    congr 1
    omega
  have happ : synthSeq v (e - 5002) 1001 ++ synthSeq v (e - 4001) 4002
      = synthSeq v (e - 5002) 5003 :=
    synthSeq_append' v (e - 5002) (e - 4001) (e - 5002) 1001 4002 5003 rfl
      (by push_cast; ring) (by norm_num)
  rw [hfin, happ, synthSeq_drop_one, show e - 5002 + 1 = e - 5001 from by ring]

/-- A one-element synthetic run. -/
lemma synthSeq_one (v : Int → Int × Int × Int × Int) (lo : Int) :
    synthSeq v lo 1 = [synthBar v lo] := by
  rw [synthSeq_succ]
  rfl

/-- Full evaluation of `get_ohlc_data` on a 1-day window (latest stored
bar dated yesterday) against the synthetic contiguous upstream: one
request returns the bars for yesterday and today, and the trim drops the
yesterday bar, leaving exactly today's bar. -/
lemma get_ohlc_synth_1 (v : Int → Int × Int × Int × Int) (fd today : Int) :
    get_ohlc_data "crypto" fd (synthApi v) today (some (today - 1))
      = (.fetched [synthBar v today], 1) := by
  rw [get_ohlc_crypto_some, show today - (today - 1) = 1 from by ring]
  rw [paginate_small (synthApi v) 1 today (by norm_num)]
  show (FetchOutcome.fetched
      ((request_cryptocompare (synthApi v) 1 today).drop 1), 1)
    = (.fetched [synthBar v today], 1)
  have hreq : request_cryptocompare (synthApi v) 1 today
      = synthSeq v (today - 1) 2 := by
    rw [request_synth]
    congr 1
  rw [hreq, synthSeq_drop_one, show today - 1 + 1 = today from by ring]
  rw [show (2 - 1 : Nat) = 1 from rfl, synthSeq_one]

lemma sumOHLC_eq_zero (b : Bar) (hz : allZero b) : sumOHLC b = 0 := by
  unfold allZero at hz
  unfold sumOHLC
  omega

lemma sumOHLC_ne_zero (b : Bar) (hnn : nonnegBar b) (hnz : ¬ allZero b) :
    sumOHLC b ≠ 0 := by
  unfold nonnegBar at hnn
  unfold allZero at hnz
  unfold sumOHLC
  omega

/-- The scan index is the position of the first bar with non-zero OHLC
sum when the bars before it all sum to zero. -/
lemma trimIndex_eq : ∀ (l : List Bar) (k : Nat) (hk : k < l.length),
    (∀ (j : Nat) (hj : j < k), sumOHLC (l.get ⟨j, Nat.lt_trans hj hk⟩) = 0) →
    sumOHLC (l.get ⟨k, hk⟩) ≠ 0 → trimIndex l = k
  | [], k, hk, _, _ => absurd hk (by simp)
  | [b], k, hk, _, _ => by
    have hk0 : k = 0 := by
      simp only [List.length_singleton] at hk
      omega
    subst hk0
    rfl
  | b :: c :: r, 0, hk, _, ha => by
    simp only [List.get] at ha
    simp [trimIndex, ha]
  | b :: c :: r, k + 1, hk, hb, ha => by
    have hb0 : sumOHLC b = 0 := by
      have := hb 0 (Nat.succ_pos k)
      simpa using this
    have ih := trimIndex_eq (c :: r) k (Nat.lt_of_succ_lt_succ hk)
      (fun j hj => hb (j + 1) (Nat.succ_lt_succ hj))
      (by simpa using ha)
    simp [trimIndex, hb0, ih]

/-- The trimming step on a list whose first `k` bars sum to zero and
whose `k`-th bar does not: exactly the `k` leading bars are dropped. -/
lemma stripLeadingZeros_eq (l : List Bar) (k : Nat) (hk : k < l.length)
    (hb : ∀ (j : Nat) (hj : j < k), sumOHLC (l.get ⟨j, Nat.lt_trans hj hk⟩) = 0)
    (ha : sumOHLC (l.get ⟨k, hk⟩) ≠ 0) :
    stripLeadingZeros l = some (l.drop k) := by
  have hne : ¬ l.isEmpty = true := by
    cases l
    · simp at hk
    · simp
  unfold stripLeadingZeros
  rw [if_neg hne, trimIndex_eq l k hk hb ha]

end CryptoCompareOHLC

namespace IBOHLC

/-- The client-side filter only discards rows: the result is a sublist of
the fetched bars. -/
lemma ibFilterDates_sublist (bars : List IBBar) (startDate endDate : Option Int) :
    (ibFilterDates bars startDate endDate).Sublist bars := by
  unfold ibFilterDates
  cases startDate <;> cases endDate
  · exact List.Sublist.refl bars
  · exact List.filter_sublist bars
  · exact List.filter_sublist bars
  · exact (List.filter_sublist _).trans (List.filter_sublist bars)

end IBOHLC

open CryptoCompareOHLC

set_option maxRecDepth 20000 in
/-- C1: against the synthetic upstream in which a page request of size `n`
returns `n + 1` contiguous daily points ending at the requested to-date,
a 5000-day window (`start_date = end_date - 5000`) does NOT stitch to
5000 bars: each full page keeps its extra oldest point and only one row
is trimmed at the end, so the final result is 5002 contiguous bars (in
strictly ascending order with no gaps and no duplicate dates, covering
days `end_date - 5001 … end_date`), after 3 upstream requests. -/
theorem claim_C1 (v : Int → Int × Int × Int × Int) (fd e : Int) :
    get_ohlc_data "crypto" fd (synthApi v) e (some (e - 5000))
      = (.fetched (synthSeq v (e - 5001) 5002), 3)
    ∧ (synthSeq v (e - 5001) 5002).length = 5002
    ∧ List.Chain' (fun a b : Bar => b.date = a.date + 1)
        (synthSeq v (e - 5001) 5002) :=
  ⟨get_ohlc_synth_5000 v fd e, synthSeq_length v (e - 5001) 5002,
    synthSeq_chain v 5002 (e - 5001)⟩

/-- C2: when the latest stored bar is dated yesterday, `update_ohlc_data`
chooses the window `(today, yesterday)`, and against the synthetic
contiguous upstream `get_ohlc_data` stitches two bars (yesterday and
today), drops exactly the first row, and stages exactly one bar, dated
today, for insertion. -/
theorem claim_C2 (v : Int → Int × Int × Int × Int) (fd today : Int) :
    CryptoCompareOHLC.update_ohlc_data (some (today - 1)) today
      = some (today, some (today - 1))
    ∧ get_ohlc_data "crypto" fd (synthApi v) today (some (today - 1))
        = (.fetched [synthBar v today], 1)
    ∧ (synthBar v today).date = today := by
  refine ⟨?_, get_ohlc_synth_1 v fd today, rfl⟩
  simp only [CryptoCompareOHLC.update_ohlc_data]
  simp

/-- C4: when the latest stored bar is dated today, both updater variants
take their log-and-return branch: no fetch window is produced, so no
upstream request and no insert happens and the Bar Store is unchanged. -/
theorem claim_C4 (today nowMinusLag : Int) :
    CryptoCompareOHLC.update_ohlc_data (some today) today = none
    ∧ IBOHLC.update_ohlc_data (some today) today nowMinusLag = none := by
  constructor
  · simp only [CryptoCompareOHLC.update_ohlc_data]
    rw [if_neg (by omega)]
    simp
  · simp only [IBOHLC.update_ohlc_data]
    simp

/-- C7 counterexample: the claimed unassigned-`limit` path does not exist.
The two guards `if start_date:` and `if start_date is None:` are
complementary for an `Optional[date]` (a date object is always truthy),
so there is no input on which the page-size comparison reads `limit`
unassigned. -/
theorem claim_C7_counterexample :
    ¬ ∃ (startDate : Option Int) (endDate firstDate : Int),
        limitAfterGuards startDate endDate firstDate = none := by
  rintro ⟨s, e, f, h⟩
  cases s <;> simp [limitAfterGuards] at h

/-- C7 (amended): on every execution path reaching the page-size
comparison of `get_ohlc_data`, the day-count variable `limit` has been
assigned: either by the `start_date` branch or by the vendor
earliest-date branch. -/
theorem claim_C7 (startDate : Option Int) (endDate firstDate : Int) :
    (limitAfterGuards startDate endDate firstDate).isSome = true := by
  cases startDate <;> simp [limitAfterGuards]

/-- C8: for a non-crypto instrument, `get_ohlc_data` returns at the
vehicle guard for every window: no upstream request is issued and
`self.data` is never assigned, so nothing is staged for insertion. -/
theorem claim_C8 (vehicle : String) (hv : vehicle ≠ "crypto")
    (firstDate : Int) (api : Int → Int → List Bar) (endDate : Int)
    (startDate : Option Int) :
    get_ohlc_data vehicle firstDate api endDate startDate = (.noFetch, 0) :=
  get_ohlc_noncrypto vehicle hv firstDate api endDate startDate

theorem claim_C8_witness :
    get_ohlc_data "stock" 0 (fun _ _ => []) 0 none = (.noFetch, 0) :=
  claim_C8 "stock" (by decide) 0 (fun _ _ => []) 0 none

/-- C3: on a first-ever fetch (`start_date` unset) whose stitched data
has `k` leading all-zero bars followed by a bar with non-zero
(nonnegative) OHLC, `get_ohlc_data` drops exactly those `k` bars: the
retained result starts at the first non-zero bar and keeps every later
bar.  The upstream here returns the stitched list in one page (window of
at most the page size); the raw page is newest-first, as the API
delivers it. -/
theorem claim_C3 (firstDate endDate : Int)
    (hwin : endDate - firstDate ≤ 2000) (l : List Bar) (k : Nat)
    (hk : k < l.length)
    (hzero : ∀ (j : Nat) (hj : j < k), allZero (l.get ⟨j, Nat.lt_trans hj hk⟩))
    (hnn : nonnegBar (l.get ⟨k, hk⟩)) (hnz : ¬ allZero (l.get ⟨k, hk⟩)) :
    get_ohlc_data "crypto" firstDate (fun _ _ => l.reverse) endDate none
      = (.fetched (l.drop k), 2) := by
  rw [get_ohlc_crypto_none]
  rw [paginate_small (fun _ _ => l.reverse) (endDate - firstDate) endDate
    (by omega)]
  show (match stripLeadingZeros (request_cryptocompare (fun _ _ => l.reverse)
          (endDate - firstDate) endDate) with
        | none => (FetchOutcome.error, 1 + 1)
        | some kept => (.fetched kept, 1 + 1))
      = (.fetched (l.drop k), 2)
  have hreq : request_cryptocompare (fun _ _ => l.reverse)
      (endDate - firstDate) endDate = l := by
    simp [request_cryptocompare]
  rw [hreq, stripLeadingZeros_eq l k hk
    (fun j hj => sumOHLC_eq_zero _ (hzero j hj))
    (sumOHLC_ne_zero _ hnn hnz)]

theorem claim_C3_witness :
    get_ohlc_data "crypto" 0
      (fun _ _ => ([⟨0, 0, 0, 0, 0⟩, ⟨1, 0, 0, 0, 0⟩, ⟨2, 0, 0, 0, 0⟩,
        ⟨3, 7, 9, 5, 8⟩, ⟨4, 8, 9, 6, 7⟩] : List Bar).reverse) 4 none
      = (.fetched [⟨3, 7, 9, 5, 8⟩, ⟨4, 8, 9, 6, 7⟩], 2) :=
  claim_C3 0 4 (by norm_num)
    [⟨0, 0, 0, 0, 0⟩, ⟨1, 0, 0, 0, 0⟩, ⟨2, 0, 0, 0, 0⟩,
      ⟨3, 7, 9, 5, 8⟩, ⟨4, 8, 9, 6, 7⟩] 3
    (by norm_num) (by decide) (by decide) (by decide)

/-- C5: the brokerage client-side filter keeps exactly the bars strictly
after `start_date` and strictly before `end_date` — both boundaries are
exclusive — so bars at days `[day0, day1, day2, day3]` filtered by the
window `(day0, day2)` reduce to exactly `[day1]`. -/
theorem claim_C5 :
    (∀ (bars : List IBOHLC.IBBar) (s e : Int) (b : IBOHLC.IBBar),
        b ∈ IBOHLC.ibFilterDates bars (some s) (some e)
          ↔ b ∈ bars ∧ s < b.date ∧ b.date < e)
    ∧ ∀ d0 d1 d2 d3 : Int, d0 < d1 → d1 < d2 → d2 < d3 →
        IBOHLC.ibFilterDates [⟨d0⟩, ⟨d1⟩, ⟨d2⟩, ⟨d3⟩] (some d0) (some d2)
          = [⟨d1⟩] := by
  constructor
  · intro bars s e b
    simp [IBOHLC.ibFilterDates, List.mem_filter, and_assoc]
    tauto
  · intro d0 d1 d2 d3 h01 h12 h23
    have h02 : d0 < d2 := h01.trans h12
    have h03 : d0 < d3 := h02.trans h23
    have h00 : ¬ d0 < d0 := lt_irrefl d0
    have h22 : ¬ d2 < d2 := lt_irrefl d2
    have h32 : ¬ d3 < d2 := by omega
    simp [IBOHLC.ibFilterDates, h01, h12, h02, h03, h00, h22, h32]

theorem claim_C5_witness :
    IBOHLC.ibFilterDates [⟨0⟩, ⟨1⟩, ⟨2⟩, ⟨3⟩] (some 0) (some 2) = [⟨1⟩] :=
  claim_C5.2 0 1 2 3 (by norm_num) (by norm_num) (by norm_num)

/-- C6: the factory matches the source name case-insensitively — any name
lowercasing to "crypto-compare" yields the crypto-vendor variant, any
name lowercasing to "interactive-brokers" yields the brokerage variant,
and every other name yields no instance rather than an error. -/
theorem claim_C6 :
    (∀ s : String, lowerName s = "crypto-compare" →
        create_updater s = some UpdaterKind.cryptoCompare)
    ∧ (∀ s : String, lowerName s = "interactive-brokers" →
        create_updater s = some UpdaterKind.interactiveBrokers)
    ∧ ∀ s : String, lowerName s ≠ "crypto-compare" →
        lowerName s ≠ "interactive-brokers" → create_updater s = none := by
  refine ⟨fun s h => ?_, fun s h => ?_, fun s h1 h2 => ?_⟩
  · simp [create_updater, h]
  · simp [create_updater, h]
  · simp [create_updater, h1, h2]

theorem claim_C6_witness :
    create_updater "Crypto-Compare" = some UpdaterKind.cryptoCompare
    ∧ create_updater "INTERACTIVE-BROKERS"
        = some UpdaterKind.interactiveBrokers
    ∧ create_updater "alpaca" = none :=
  ⟨claim_C6.1 "Crypto-Compare" (by decide),
    claim_C6.2.1 "INTERACTIVE-BROKERS" (by decide),
    claim_C6.2.2 "alpaca" (by decide) (by decide)⟩

/-- C9: the leading-zero trimming step is total only on non-empty input.
On the empty stitched list the loop index is never assigned and the step
errors (and `get_ohlc_data` surfaces that error when an upstream page is
empty on a first-ever fetch); on every non-empty list it returns a
suffix of its input. -/
theorem claim_C9 :
    stripLeadingZeros [] = none
    ∧ (∀ firstDate endDate : Int, endDate - firstDate ≤ 2000 →
        get_ohlc_data "crypto" firstDate (fun _ _ => []) endDate none
          = (.error, 2))
    ∧ ∀ l : List Bar, l ≠ [] →
        ∃ r, stripLeadingZeros l = some r ∧ r.IsSuffix l := by
  refine ⟨rfl, ?_, ?_⟩
  · intro fd e hw
    rw [get_ohlc_crypto_none, paginate_small (fun _ _ => []) (e - fd) e
      (by omega)]
    rfl
  · intro l hl
    refine ⟨l.drop (trimIndex l), ?_, l.take (trimIndex l),
      List.take_append_drop (trimIndex l) l⟩
    unfold stripLeadingZeros
    rw [if_neg (by simpa using hl)]

theorem claim_C9_witness :
    get_ohlc_data "crypto" 0 (fun _ _ => []) 5 none = (.error, 2)
    ∧ ∃ r, stripLeadingZeros [⟨0, 0, 0, 0, 0⟩] = some r
        ∧ r.IsSuffix [⟨0, 0, 0, 0, 0⟩] :=
  ⟨claim_C9.2.1 0 5 (by norm_num), claim_C9.2.2 [⟨0, 0, 0, 0, 0⟩] (by decide)⟩

/-- C10: the brokerage fetch always passes the fixed lookback parameters
`period="5y"`, `bar="1d"` to the upstream, for every requested window
(the window, including the 2000-01-01 start used when no bar is stored,
only drives the client-side filter), and the stored DataFrame is always
a sub-selection of the fixed lookback's bars. -/
theorem claim_C10 (getBars : String → String → List IBOHLC.IBBar)
    (startDate endDate : Option Int) (st : IBOHLC.IBFetch)
    (h : IBOHLC.get_ohlc_data false getBars startDate endDate = some st) :
    st.period = "5y" ∧ st.barSize = "1d"
    ∧ ∀ l, st.df = some l → l.Sublist (getBars "5y" "1d") := by
  simp only [IBOHLC.get_ohlc_data, Bool.false_eq_true, if_false,
    Option.some.injEq] at h
  subst h
  refine ⟨rfl, rfl, fun l hl => ?_⟩
  by_cases hemp :
      (IBOHLC.ibFilterDates (getBars "5y" "1d") startDate endDate).isEmpty
  · rw [if_pos hemp] at hl
    cases hl
  · rw [if_neg hemp] at hl
    obtain rfl : IBOHLC.ibFilterDates (getBars "5y" "1d") startDate endDate
        = l := Option.some.inj hl
    exact IBOHLC.ibFilterDates_sublist (getBars "5y" "1d") startDate endDate

theorem claim_C10_witness :
    (⟨"5y", "1d", some [⟨5⟩]⟩ : IBOHLC.IBFetch).period = "5y"
    ∧ (⟨"5y", "1d", some [⟨5⟩]⟩ : IBOHLC.IBFetch).barSize = "1d"
    ∧ ∀ l, (⟨"5y", "1d", some [⟨5⟩]⟩ : IBOHLC.IBFetch).df = some l →
        l.Sublist ((fun _ _ => [⟨5⟩]) "5y" "1d") :=
  claim_C10 (fun _ _ => [⟨5⟩]) none none ⟨"5y", "1d", some [⟨5⟩]⟩ rfl

end Tradebot
